import Mathlib

set_option maxRecDepth 40000

/-!
Verification of `cmd/iaviewer/main.go` (iavl tree inspection tool).

The Go source is shallowly embedded: byte strings become `List Byte`
(`Byte := Fin 256`), Go strings become Lean `String` or `List Char`, and
fallible or panicking code paths (integer division by zero, out-of-range
index) are made explicit with `Option` / dedicated outcome constructors.
External collaborators (the iavl tree engine, RocksDB, the SHA-256
primitive, codecs) are modelled as parameters or, where a claim depends
on them, from the specification text.
-/

/-- A byte, as stored in Go `[]byte` keys and values. -/
abbrev Byte := Fin 256

/-- The condition from `encodeID`'s loop (`b < 0x20 || b >= 0x80`):
true when the byte is outside the printable-ASCII range. -/
def byteNonPrintable (b : Byte) : Bool :=
  b.val < 0x20 || 0x80 ≤ b.val

/-- Uppercase hexadecimal digit for a value `0 ≤ n < 16`.
Go's `hex.EncodeToString` emits lowercase and `strings.ToUpper` lifts it;
the net effect is uppercase digits. -/
def hexDigitUpper (n : Nat) : Char :=
  if n < 10 then Char.ofNat (48 + n) else Char.ofNat (65 + (n - 10))

/-- The two uppercase hex digits of one byte. -/
def hexByteUpper (b : Byte) : List Char :=
  [hexDigitUpper (b.val / 16), hexDigitUpper (b.val % 16)]

/-- Go `string(id)`: each byte becomes the character with that code point
(keys here are ASCII whenever this branch is taken). -/
def bytesToString (bs : List Byte) : String :=
  String.mk (bs.map (fun b => Char.ofNat b.val))

/-- `strings.ToUpper(hex.EncodeToString(id))`: uppercase hex of the whole
segment. -/
def hexUpperString (bs : List Byte) : String :=
  String.mk (bs.flatMap hexByteUpper)

/-- `encodeID` from main.go: casts to a string if every byte is printable
ascii, hex-encodes the whole segment otherwise.  The Go loop returns the
hex form as soon as it meets one byte outside the range, which is the
same as testing whether any byte is outside the range. -/
def encodeID (id : List Byte) : String :=
  if id.any byteNonPrintable then hexUpperString id
  else bytesToString id

/-- The byte of the rune `:` (0x3A). -/
def colonByte : Byte := 58

/-- `bytes.IndexRune(key, ':')`: index of the first `:` byte, `none`
standing for Go's `-1`. -/
def indexOfColon : List Byte → Option Nat
  | [] => none
  | b :: rest =>
    if b = colonByte then some 0
    else (indexOfColon rest).map (· + 1)

/-- `parseWeaveKey` from main.go: split at the first `:`; encode the
whole key when there is none, otherwise encode the two halves
independently and join them with `:` (`fmt.Sprintf("%s:%s", ...)`). -/
def parseWeaveKey (key : List Byte) : String :=
  match indexOfColon key with
  | none => encodeID key
  | some cut =>
    encodeID (key.take cut) ++ ":" ++ encodeID (key.drop (cut + 1))

/-- The bytes of an ASCII Lean string, for concrete test keys. -/
def strToBytes (s : String) : List Byte :=
  s.data.map (fun c => Fin.ofNat c.toNat)

/-- One (key, value) pair of a snapshot.  `tree.Iterate` presents the
committed entries in ascending key order; a snapshot is modelled as the
list of entries in that visit order. -/
abbrev Entry := List Byte × List Byte

/-- `Max` from main.go (on `int64`; all inputs here are lengths, hence
nonnegative and far from overflow, so `Nat` carries them).  Named
`goMax` because `Max` is taken by Mathlib's order class. -/
def goMax (x y : Nat) : Nat :=
  if x > y then x else y

/-- The accumulator variables of `PrintKeysWithValueSize`:
`count`, `keySizeTotal`, `valueSizeTotal`, `keyMaxSize`, `valueMaxSize`.
In Go they are `int64`/`int` counters that only ever grow by entry
lengths, so they stay nonnegative and are carried as `Nat`. -/
structure TraversalStats where
  count : Nat
  keySizeTotal : Nat
  valueSizeTotal : Nat
  keyMaxSize : Nat
  valueMaxSize : Nat
  deriving Repr, DecidableEq

/-- The body of the `tree.Iterate` callback in `PrintKeysWithValueSize`:
increment the count, add the key and value lengths to the totals, and
update the running maxima with `Max`. -/
def visitEntry (s : TraversalStats) (e : Entry) : TraversalStats :=
  { count := s.count + 1
    keySizeTotal := s.keySizeTotal + e.1.length
    valueSizeTotal := s.valueSizeTotal + e.2.length
    keyMaxSize := goMax s.keyMaxSize e.1.length
    valueMaxSize := goMax s.valueMaxSize e.2.length }

/-- The full accumulation pass of `PrintKeysWithValueSize` over a
snapshot: all five counters start at zero and the callback runs once per
entry in visit order. -/
def traverseStats (entries : List Entry) : TraversalStats :=
  entries.foldl visitEntry { count := 0, keySizeTotal := 0, valueSizeTotal := 0, keyMaxSize := 0, valueMaxSize := 0 }

/-- The final average line of `PrintKeysWithValueSize`:
`int64(keySizeTotal)/count` and `int64(valueSizeTotal)/count`.  Go
integer division panics when the divisor is zero, so the computation is
partial: `none` models the division-by-zero panic on an empty tree;
otherwise both operands are nonnegative, and Go's truncated division
agrees with `Nat` division. -/
def statisticsAverages (entries : List Entry) : Option (Nat × Nat) :=
  let s := traverseStats entries
  if s.count = 0 then none
  else some (s.keySizeTotal / s.count, s.valueSizeTotal / s.count)

/-- The two lines `PrintKeys` prints for one entry:
`fmt.Printf("  %s\n    %X\n", printKey, digest)`.  The SHA-256 digest of
the value is computed by the external `crypto/sha256` primitive; both
printers call it on the same value, so the rendered digest string is a
parameter. -/
def printKeysEntryLines (digestHex : String) (key : List Byte) : String :=
  "  " ++ parseWeaveKey key ++ "\n    " ++ digestHex ++ "\n"

/-- The two lines `PrintKeysWithValueSize` prints for one entry:
`fmt.Printf("  %s\n    %X\n", printKey, digest, valueSize)`.  The format
string has verbs for only two operands; Go's `fmt` appends
`%!(EXTRA int=<value>)` to the output for the unconsumed third operand
`valueSize = len(value)`. -/
def printKeysWithValueSizeEntryLines (digestHex : String) (key value : List Byte) : String :=
  "  " ++ parseWeaveKey key ++ "\n    " ++ digestHex ++ "\n"
    ++ "%!(EXTRA int=" ++ toString value.length ++ ")"

/-- The progress condition inside the `PrintKeysWithValueSize` callback:
`tree.Size() >= 100 && count%(tree.Size()/100) == 0`.  `size` is the
total entry count of the snapshot (constant during iteration) and
`count` the number of entries visited so far.  The `&&` short-circuit
keeps Go from a modulus by zero when `size < 100`. -/
def progressPrinted (size count : Nat) : Bool :=
  decide (100 ≤ size) && decide (count % (size / 100) = 0)

/-- How many progress lines a full statistics traversal over `n` entries
prints: the condition is tested once per entry, at counts `1, ..., n`. -/
def numProgressLines (n : Nat) : Nat :=
  ((List.range n).map (· + 1)).countP (fun c => progressPrinted n c)

/-- A digit character `0`-`9`, for the model of `strconv.Atoi`. -/
def isDecimalDigit (c : Char) : Bool :=
  48 ≤ c.toNat && c.toNat ≤ 57

/-- The numeric value of a nonempty all-digit string,
`none` otherwise. -/
def decimalDigits (l : List Char) : Option Nat :=
  if l = [] then none
  else if l.all isDecimalDigit then
    some (l.foldl (fun a c => a * 10 + (c.toNat - 48)) 0)
  else none

/-- Go `strconv.Atoi`: an optional sign followed by at least one decimal
digit, rejected when the value overflows a 64-bit `int`. -/
def goAtoi (s : String) : Option Int :=
  match s.data with
  | '+' :: rest =>
    (decimalDigits rest).bind fun n =>
      if n ≤ 2 ^ 63 - 1 then some (n : Int) else none
  | '-' :: rest =>
    (decimalDigits rest).bind fun n =>
      if n ≤ 2 ^ 63 then some (-(n : Int)) else none
  | l =>
    (decimalDigits l).bind fun n =>
      if n ≤ 2 ^ 63 - 1 then some (n : Int) else none

/-- The six command words accepted by the argument check in `main`
(`data`, `shape`, `versions`, `balance`, `nonce`, `stastistics`). -/
def validCommands : List String :=
  ["data", "shape", "versions", "balance", "nonce", "stastistics"]

/-- How an invocation of `main` leaves the process, as far as the
argument-handling phase decides it.  `exit 1` paths print to stderr
first; the two panic constructors are uncaught Go runtime aborts
(exit status 2), not `os.Exit(1)`. -/
inductive ArgOutcome where
  | usageExit1
  | invalidVersionExit1
  | readTreeErrorExit1
  | panicIndexOutOfRange
  | panicHexDecode
  | commandRuns
  deriving Repr, DecidableEq

/-- The argument handling of `main` over `args = os.Args[1:]`.  Whether
`ReadTree` succeeds and whether `hex.DecodeString` accepts a string
depend on the external database and codec, so they are oracle
parameters.  Mirrors the source order: usage check, optional version
parse of `args[3]`, `ReadTree` (skipped for `stastistics`), then the
switch, where `balance` and `nonce` read `args[4]` unconditionally —
an index-out-of-range panic when fewer than five arguments are given. -/
def mainArgOutcome (args : List String) (readTreeOk : Bool)
    (hexOk : String → Bool) : ArgOutcome :=
  if args.length < 3 ∨ ¬ validCommands.contains (args.getD 0 "") then
    .usageExit1
  else if 4 ≤ args.length ∧ (goAtoi (args.getD 3 "")).isNone then
    .invalidVersionExit1
  else if args.getD 0 "" ≠ "stastistics" ∧ ¬ readTreeOk then
    .readTreeErrorExit1
  else if args.getD 0 "" = "balance" ∨ args.getD 0 "" = "nonce" then
    match args[4]? with
    | none => .panicIndexOutOfRange
    | some a => if hexOk a then .commandRuns else .panicHexDecode
  else
    .commandRuns

/-- The result of `OpenDB`.  `openHandle name parent` stands for the
single call site of `dbm.NewRocksDB(name, parent)`: only this
constructor attempts to open an underlying storage handle. -/
inductive OpenDBResult where
  | invalidSuffixError
  | cannotCutError
  | openHandle (name : List Char) (parent : List Char)
  deriving Repr, DecidableEq

/-- Go `strings.LastIndex(dir, "/")`, `none` standing for `-1`. -/
def lastSlashIdx : List Char → Option Nat
  | [] => none
  | c :: rest =>
    match lastSlashIdx rest with
    | some i => some (i + 1)
    | none => if c = '/' then some 0 else none

/-- The suffix `.db` recognised by `OpenDB`. -/
def dbSuffix : List Char := ['.', 'd', 'b']

/-- The suffix `.db/` recognised by `OpenDB`. -/
def dbSuffixSlash : List Char := ['.', 'd', 'b', '/']

/-- The part of `OpenDB` after the suffix has been stripped: split at
the last `/` into parent directory and database name. -/
def openTrimmed (d : List Char) : OpenDBResult :=
  match lastSlashIdx d with
  | none => .cannotCutError
  | some cut => .openHandle (d.drop (cut + 1)) (d.take cut)

/-- `OpenDB` from main.go: strip a trailing `.db` (or `.db/`), failing
when neither suffix is present; split the rest at the last `/` into
parent directory and database name (`openTrimmed`), failing when there
is no `/`; only then call `dbm.NewRocksDB(name, parent)`. -/
def OpenDB (dir : List Char) : OpenDBResult :=
  if dbSuffix.isSuffixOf dir then
    openTrimmed (dir.take (dir.length - 3))
  else if dbSuffixSlash.isSuffixOf dir then
    openTrimmed (dir.take (dir.length - 4))
  else
    .invalidSuffixError

/-- The fixed ordered module catalog of `PrintStatistics`. -/
def modules : List String :=
  ["capability", "params", "transfer", "staking", "slashing",
   "distribution", "feegrant", "upgrade", "authz", "evidence",
   "feemarket", "gravity", "gov", "cronos", "ibc", "bank", "mint",
   "acc", "evm"]

/-- `fmt.Sprintf("s/k:%s/", mod)`: the store key of one module. -/
def modulePfx (mod : String) : String :=
  "s/k:" ++ mod ++ "/"

/-- What the `PrintStatistics` loop does for one module: either the
error report (`Error reading <mod> data: ...` followed by `continue`) or
the per-module statistics output. -/
inductive ModuleOutcome where
  | errorReported (mod : String) (err : String)
  | statsPrinted (mod : String)
  deriving Repr, DecidableEq

/-- The `PrintStatistics` loop body over the tail of the catalog:
build the module's prefix string, call `ReadTree` on it (the database
path and version are fixed for the whole loop, so the call is an oracle
from the prefix string), report and continue on error, otherwise print
that module's statistics.  The recursion mirrors the Go `for` loop with
its `continue`. -/
def printStatisticsLoop (readTree : String → Except String Unit) :
    List String → List ModuleOutcome
  | [] => []
  | mod :: rest =>
    (match readTree (modulePfx mod) with
     | .error e => ModuleOutcome.errorReported mod e
     | .ok _ => ModuleOutcome.statsPrinted mod) :: printStatisticsLoop readTree rest

/-- `PrintStatistics` from main.go, as the list of per-module outcomes
in catalog order. -/
def PrintStatistics (readTree : String → Except String Unit) : List ModuleOutcome :=
  printStatisticsLoop readTree modules

/-- Modelled from the spec: the iavl `MutableTree.LoadVersion` engine is
part of this repository but not under `src/` (only its caller
`ReadTree` is).  A versioned store is the list of committed versions,
each with its snapshot; per the spec, version numbers of real commits
are positive, version 0 being the "load latest" sentinel. -/
structure VersionedStore where
  committed : List (Nat × List Entry)

/-- Modelled from the spec: the latest committed version of a store. -/
def latestVersion (db : VersionedStore) : Nat :=
  (db.committed.map Prod.fst).foldl max 0

/-- Modelled from the spec: the snapshot committed at a version, if
that version exists. -/
def findVersion (v : Nat) : List (Nat × List Entry) → Option (List Entry)
  | [] => none
  | p :: rest => if p.1 = v then some p.2 else findVersion v rest

/-- Modelled from the spec: `LoadVersion` as called by `ReadTree`.
"Version 0 is a sentinel meaning load latest available version.
Loading a version that does not exist fails."  On success it reports
the version actually loaded together with the loaded snapshot. -/
def loadVersion (db : VersionedStore) (v : Nat) :
    Except String (Nat × List Entry) :=
  if v = 0 then
    match findVersion (latestVersion db) db.committed with
    | some snap => .ok (latestVersion db, snap)
    | none => .error "version does not exist"
  else
    match findVersion v db.committed with
    | some snap => .ok (v, snap)
    | none => .error "version does not exist"

/-! ## Helper lemmas -/

/-- `encodeID` takes the pass-through branch when every byte is
printable. -/
theorem encodeID_of_printable (seg : List Byte)
    (h : ∀ b ∈ seg, byteNonPrintable b = false) :
    encodeID seg = bytesToString seg := by
  unfold encodeID
  rw [if_neg]
  simp only [List.any_eq_true, not_exists, not_and]
  intro b hb
  simp [h b hb]

/-- `encodeID` takes the hex branch when some byte is outside the
printable range. -/
theorem encodeID_of_nonPrintable (seg : List Byte) (b : Byte)
    (hb : b ∈ seg) (h : byteNonPrintable b = true) :
    encodeID seg = hexUpperString seg := by
  unfold encodeID
  rw [if_pos]
  exact List.any_eq_true.mpr ⟨b, hb, h⟩

/-- The first colon of `p ++ [colonByte]` is at index `p.length` when
`p` itself is colon-free. -/
theorem indexOfColon_append_colon (p : List Byte)
    (h : ∀ b ∈ p, b ≠ colonByte) :
    indexOfColon (p ++ [colonByte]) = some p.length := by
  induction p with
  | nil => simp [indexOfColon]
  | cons a rest ih =>
    have ha : ¬ a = colonByte := h a (by simp)
    have ih2 := ih (fun b hb => h b (List.mem_cons_of_mem a hb))
    simp [indexOfColon, if_neg ha, ih2]

/-! ## Claim theorems -/

/-- C2: weave-key rendering is a deterministic pure function of the key
bytes: encoding twice yields identical output; an all-printable segment
is returned verbatim as text; a segment containing a byte outside the
printable-ASCII range is returned as uppercase hex of the whole
segment; `"abc:def"` encodes to `"abc:def"`; a key whose identifier
segment contains byte `0x00` renders that segment as uppercase hex. -/
theorem parseWeaveKey_deterministic_printable_hex :
    (∀ key : List Byte, parseWeaveKey key = parseWeaveKey key)
    ∧ (∀ seg : List Byte, (∀ b ∈ seg, byteNonPrintable b = false) →
        encodeID seg = bytesToString seg)
    ∧ (∀ seg : List Byte, ∀ b ∈ seg, byteNonPrintable b = true →
        encodeID seg = hexUpperString seg)
    ∧ parseWeaveKey (strToBytes "abc:def") = "abc:def"
    ∧ parseWeaveKey [97, 58, 0, 255] = "a:00FF" :=
  ⟨fun _ => rfl,
   encodeID_of_printable,
   fun seg b hb h => encodeID_of_nonPrintable seg b hb h,
   by decide,
   by decide⟩

/-- Witness for C2 at concrete segments: `"GHI"` is all printable and
passes through; `[0x00]` contains a non-printable byte and hex-encodes. -/
theorem parseWeaveKey_deterministic_printable_hex_witness :
    encodeID (strToBytes "GHI") = bytesToString (strToBytes "GHI")
    ∧ encodeID [0] = hexUpperString [0] :=
  ⟨parseWeaveKey_deterministic_printable_hex.2.1 (strToBytes "GHI") (by decide),
   parseWeaveKey_deterministic_printable_hex.2.2.1 [0] 0 (by decide) (by decide)⟩

/-- C10: an empty segment counts as all-printable: `encodeID` of the
empty byte string is the empty string, and a colon-free key followed by
a trailing `:` renders as the encoded key followed by `:` — the empty
identifier segment is never hex-encoded. -/
theorem encodeID_empty_segment :
    encodeID ([] : List Byte) = ""
    ∧ ∀ p : List Byte, (∀ b ∈ p, b ≠ colonByte) →
        parseWeaveKey (p ++ [colonByte]) = encodeID p ++ ":" := by
  refine ⟨by decide, fun p h => ?_⟩
  unfold parseWeaveKey
  rw [indexOfColon_append_colon p h]
  show encodeID ((p ++ [colonByte]).take p.length) ++ ":"
      ++ encodeID ((p ++ [colonByte]).drop (p.length + 1)) = encodeID p ++ ":"
  have htake : (p ++ [colonByte]).take p.length = p := List.take_left p [colonByte]
  have hdrop : (p ++ [colonByte]).drop (p.length + 1) = [] :=
    List.drop_eq_nil_of_le (by simp)
  rw [htake, hdrop]
  have h0 : encodeID ([] : List Byte) = "" := by decide
  rw [h0, String.append_empty]

/-- Witness for C10: the key `"abc:"` (colon-free front segment) renders
as `"abc:"`. -/
theorem encodeID_empty_segment_witness :
    parseWeaveKey (strToBytes "abc" ++ [colonByte]) = encodeID (strToBytes "abc") ++ ":" :=
  encodeID_empty_segment.2 (strToBytes "abc") (by decide)

/-- C1 counterexample: on the empty snapshot the claimed guarded
average of 0 is not what `PrintKeysWithValueSize` computes — the final
division has divisor `count = 0`. -/
theorem stats_empty_avg_not_zero :
    statisticsAverages [] ≠ some (0, 0) := by decide

/-- C1 amended: over an empty snapshot the accumulation leaves
`count = 0` and the final average computation divides by zero (Go
panics; modelled as `none`) — there is no guard and no average of 0 is
printed. -/
theorem stats_empty_division_by_zero :
    (traverseStats []).count = 0 ∧ statisticsAverages [] = none := by decide

/-- `goMax` is the lattice `max` on `Nat`. -/
theorem goMax_eq_max (x y : Nat) : goMax x y = max x y := by
  unfold goMax
  rcases Nat.lt_or_ge y x with hxy | hxy
  · rw [if_pos hxy, Nat.max_eq_left (Nat.le_of_lt hxy)]
  · rw [if_neg (by omega), Nat.max_eq_right hxy]

/-- Closed form of the `PrintKeysWithValueSize` accumulation from any
starting accumulator. -/
theorem foldl_visitEntry (l : List Entry) (s : TraversalStats) :
    l.foldl visitEntry s =
      { count := s.count + l.length
        keySizeTotal := s.keySizeTotal + (l.map (fun e => e.1.length)).sum
        valueSizeTotal := s.valueSizeTotal + (l.map (fun e => e.2.length)).sum
        keyMaxSize := (l.map (fun e => e.1.length)).foldl max s.keyMaxSize
        valueMaxSize := (l.map (fun e => e.2.length)).foldl max s.valueMaxSize } := by
  induction l generalizing s with
  | nil => simp
  | cons e rest ih =>
    rw [List.foldl_cons, ih]
    simp only [visitEntry, goMax_eq_max, List.map_cons, List.length_cons,
      List.sum_cons, List.foldl_cons, TraversalStats.mk.injEq]
    refine ⟨by omega, by omega, by omega, trivial, trivial⟩

/-- A left fold of `max` bounds every list element from above. -/
theorem foldl_max_bounds (l : List Nat) (a : Nat) :
    a ≤ l.foldl max a ∧ ∀ x ∈ l, x ≤ l.foldl max a := by
  induction l generalizing a with
  | nil => simp
  | cons y rest ih =>
    simp only [List.foldl_cons]
    refine ⟨le_trans (le_max_left a y) (ih (max a y)).1, fun x hx => ?_⟩
    rcases List.mem_cons.mp hx with hx | hx
    · rw [hx]
      exact le_trans (le_max_right a y) (ih (max a y)).1
    · exact (ih (max a y)).2 x hx

/-- A left fold of `max` is the seed or one of the list elements. -/
theorem foldl_max_attained (l : List Nat) (a : Nat) :
    l.foldl max a = a ∨ l.foldl max a ∈ l := by
  induction l generalizing a with
  | nil => simp
  | cons y rest ih =>
    rw [List.foldl_cons]
    rcases ih (max a y) with h | h
    · rcases max_choice a y with hm | hm
      · exact Or.inl (h.trans hm)
      · exact Or.inr (List.mem_cons.mpr (Or.inl (h.trans hm)))
    · exact Or.inr (List.mem_cons.mpr (Or.inr h))

/-- C3: for every non-empty snapshot of `N` entries the averages
computed by `PrintKeysWithValueSize` are the integer quotients of the
summed key lengths and value lengths by `N`, and the accumulated
`keyMaxSize` / `valueMaxSize` are the true maxima of the key and value
lengths over all visited entries. -/
theorem stats_averages_and_maxima (entries : List Entry)
    (hne : entries ≠ []) :
    statisticsAverages entries =
      some ((entries.map (fun e => e.1.length)).sum / entries.length,
            (entries.map (fun e => e.2.length)).sum / entries.length)
    ∧ (∀ e ∈ entries, e.1.length ≤ (traverseStats entries).keyMaxSize)
    ∧ (∃ e ∈ entries, (traverseStats entries).keyMaxSize = e.1.length)
    ∧ (∀ e ∈ entries, e.2.length ≤ (traverseStats entries).valueMaxSize)
    ∧ (∃ e ∈ entries, (traverseStats entries).valueMaxSize = e.2.length) := by
  have hts : traverseStats entries =
      { count := entries.length
        keySizeTotal := (entries.map (fun e => e.1.length)).sum
        valueSizeTotal := (entries.map (fun e => e.2.length)).sum
        keyMaxSize := (entries.map (fun e => e.1.length)).foldl max 0
        valueMaxSize := (entries.map (fun e => e.2.length)).foldl max 0 } := by
    unfold traverseStats
    rw [foldl_visitEntry]
    simp
  have hlen : entries.length ≠ 0 := fun h => hne (List.length_eq_zero.mp h)
  obtain ⟨e0, he0⟩ : ∃ e, e ∈ entries := by
    cases entries with
    | nil => exact absurd rfl hne
    | cons x xs => exact ⟨x, List.mem_cons_self x xs⟩
  refine ⟨?_, ?_, ?_, ?_, ?_⟩
  · unfold statisticsAverages
    rw [hts]
    simp [hlen]
  · intro e he
    rw [hts]
    exact (foldl_max_bounds _ 0).2 _ (List.mem_map_of_mem _ he)
  · rw [hts]
    rcases foldl_max_attained (entries.map (fun e => e.1.length)) 0 with h | h
    · refine ⟨e0, he0, ?_⟩
      have hub := (foldl_max_bounds (entries.map (fun e => e.1.length)) 0).2
        e0.1.length (List.mem_map_of_mem _ he0)
      simp only []
      omega
    · obtain ⟨e, he, hl⟩ := List.mem_map.mp h
      exact ⟨e, he, hl.symm⟩
  · intro e he
    rw [hts]
    exact (foldl_max_bounds _ 0).2 _ (List.mem_map_of_mem _ he)
  · rw [hts]
    rcases foldl_max_attained (entries.map (fun e => e.2.length)) 0 with h | h
    · refine ⟨e0, he0, ?_⟩
      have hub := (foldl_max_bounds (entries.map (fun e => e.2.length)) 0).2
        e0.2.length (List.mem_map_of_mem _ he0)
      simp only []
      omega
    · obtain ⟨e, he, hl⟩ := List.mem_map.mp h
      exact ⟨e, he, hl.symm⟩

/-- Witness for C3 on a concrete two-entry snapshot: averages are the
integer quotients, maxima are attained. -/
theorem stats_averages_and_maxima_witness :
    statisticsAverages [([97], [1, 2, 3]), ([98, 99], [4])] = some (1, 2)
    ∧ 3 ≤ (traverseStats [([97], [1, 2, 3]), ([98, 99], [4])]).valueMaxSize := by
  have h := stats_averages_and_maxima [([97], [1, 2, 3]), ([98, 99], [4])] (by decide)
  refine ⟨?_, ?_⟩
  · rw [h.1]
    decide
  · exact h.2.2.2.1 ([97], [1, 2, 3]) (by decide)

/-- C5 counterexample: for the entry with key `"a"`, value `"a"` (and
any digest rendering, here `"00"`), the line pair printed by
`PrintKeysWithValueSize` is not the line pair printed by `PrintKeys` —
the stray third `Printf` operand leaves a trailing
`%!(EXTRA int=1)`. -/
theorem stats_entry_lines_not_identical :
    printKeysWithValueSizeEntryLines "00" (strToBytes "a") (strToBytes "a")
      ≠ printKeysEntryLines "00" (strToBytes "a") := by decide

/-- C5 amended: for every entry, the per-entry output of
`PrintKeysWithValueSize` is the `PrintKeys` line pair followed by the
extra-operand marker `%!(EXTRA int=<len(value)>)` that Go's `fmt`
appends for the unconsumed `valueSize` argument. -/
theorem stats_entry_lines_extra_marker (digestHex : String)
    (key value : List Byte) :
    printKeysWithValueSizeEntryLines digestHex key value =
      printKeysEntryLines digestHex key
        ++ "%!(EXTRA int=" ++ toString value.length ++ ")" := rfl

/-- C6 counterexample: a 50-entry snapshot prints no progress line at
all, and a 150-entry snapshot prints a progress line after every single
entry (150 lines), not once per 1%. -/
theorem progress_not_once_per_percent :
    numProgressLines 50 = 0 ∧ numProgressLines 150 = 150 := by decide

/-- C6 amended: a progress line is printed exactly when the snapshot
has at least 100 entries and the running count is divisible by
`size / 100`; snapshots with fewer than 100 entries never print
progress, and a 200-entry snapshot prints exactly 100 lines. -/
theorem progress_line_condition :
    (∀ size count : Nat, progressPrinted size count = true ↔
        (100 ≤ size ∧ count % (size / 100) = 0))
    ∧ (∀ n : Nat, n < 100 → numProgressLines n = 0)
    ∧ numProgressLines 200 = 100 := by
  refine ⟨fun size count => by simp [progressPrinted], fun n hn => ?_, by decide⟩
  unfold numProgressLines
  rw [List.countP_eq_zero]
  intro c hc
  simp [progressPrinted]
  omega

/-- Witness for C6 (amended) at a concrete small snapshot: 99 entries
print no progress line. -/
theorem progress_line_condition_witness :
    numProgressLines 99 = 0 :=
  progress_line_condition.2.1 99 (by decide)

/-- C4 counterexample: `balance` invoked with three arguments — the
`[address-hex]` argument missing — passes every check, and once the
tree loads, `main` reads `args[4]`, which is out of range: the process
aborts with an uncaught index-out-of-range panic, not `os.Exit(1)`. -/
theorem missing_address_panics :
    mainArgOutcome ["balance", "data.db", "s/k:acc/"] true (fun _ => true)
      = ArgOutcome.panicIndexOutOfRange := by decide

/-- C4 amended: fewer than three arguments or an unknown command exit
with status 1 after the usage message; a non-numeric version argument
exits with status 1; but a `balance` or `nonce` invocation that passes
those checks and loads the tree successfully while lacking the
`[address-hex]` argument aborts via an uncaught index-out-of-range
runtime panic instead of exiting with status 1. -/
theorem main_argument_handling :
    (∀ args rOk hOk, args.length < 3 →
        mainArgOutcome args rOk hOk = ArgOutcome.usageExit1)
    ∧ (∀ args rOk hOk, validCommands.contains (args.getD 0 "") = false →
        mainArgOutcome args rOk hOk = ArgOutcome.usageExit1)
    ∧ (∀ args rOk hOk, 3 ≤ args.length →
        validCommands.contains (args.getD 0 "") = true →
        4 ≤ args.length → goAtoi (args.getD 3 "") = none →
        mainArgOutcome args rOk hOk = ArgOutcome.invalidVersionExit1)
    ∧ (∀ args hOk, 3 ≤ args.length →
        validCommands.contains (args.getD 0 "") = true →
        (4 ≤ args.length → (goAtoi (args.getD 3 "")).isSome) →
        (args.getD 0 "" = "balance" ∨ args.getD 0 "" = "nonce") →
        args[4]? = none →
        mainArgOutcome args true hOk = ArgOutcome.panicIndexOutOfRange) := by
  refine ⟨?_, ?_, ?_, ?_⟩
  · intro args rOk hOk h
    unfold mainArgOutcome
    rw [if_pos (Or.inl h)]
  · intro args rOk hOk h
    unfold mainArgOutcome
    rw [if_pos (Or.inr (by rw [h]; exact Bool.false_ne_true))]
  · intro args rOk hOk h3 hcmd h4 hbad
    unfold mainArgOutcome
    rw [if_neg (fun hor => hor.elim (fun hl => absurd hl (by omega))
          (fun hnc => hnc hcmd)),
        if_pos ⟨h4, by rw [hbad]; rfl⟩]
  · intro args hOk h3 hcmd hver hbn h5
    unfold mainArgOutcome
    rw [if_neg (fun hor => hor.elim (fun hl => absurd hl (by omega))
          (fun hnc => hnc hcmd)),
        if_neg (fun hand => by
          have hs := hver hand.1
          rw [Option.isNone_iff_eq_none.mp hand.2] at hs
          simp at hs),
        if_neg (fun hand => hand.2 rfl),
        if_pos hbn, h5]

/-- Witness for C4 (amended) at concrete invocations: too few
arguments, an unknown command, a non-numeric version, and `nonce`
without an address. -/
theorem main_argument_handling_witness :
    mainArgOutcome ["data"] true (fun _ => true) = ArgOutcome.usageExit1
    ∧ mainArgOutcome ["frobnicate", "a.db", "p"] true (fun _ => true)
        = ArgOutcome.usageExit1
    ∧ mainArgOutcome ["data", "a.db", "p", "xyz"] true (fun _ => true)
        = ArgOutcome.invalidVersionExit1
    ∧ mainArgOutcome ["nonce", "a.db", "p"] true (fun _ => true)
        = ArgOutcome.panicIndexOutOfRange :=
  ⟨main_argument_handling.1 _ _ _ (by decide),
   main_argument_handling.2.1 _ _ _ (by decide),
   main_argument_handling.2.2.1 _ _ _ (by decide) (by decide) (by decide) (by decide),
   main_argument_handling.2.2.2 _ _ (by decide) (by decide)
     (fun h => absurd h (by decide)) (by decide) (by decide)⟩

/-- The latest committed version is one of the committed versions when
the store is non-empty. -/
theorem latestVersion_mem (db : VersionedStore) (hne : db.committed ≠ []) :
    latestVersion db ∈ db.committed.map Prod.fst := by
  unfold latestVersion
  rcases foldl_max_attained (db.committed.map Prod.fst) 0 with h | h
  · have hmapne : db.committed.map Prod.fst ≠ [] := by simp [hne]
    obtain ⟨x, hx⟩ : ∃ x, x ∈ db.committed.map Prod.fst := by
      cases hm : db.committed.map Prod.fst with
      | nil => exact absurd hm hmapne
      | cons y ys => exact ⟨y, List.mem_cons_self y ys⟩
    have hub := (foldl_max_bounds (db.committed.map Prod.fst) 0).2 x hx
    rw [h] at hub ⊢
    have hx0 : x = 0 := Nat.le_zero.mp hub
    rw [← hx0]
    exact hx
  · exact h

/-- `findVersion` succeeds on every committed version. -/
theorem findVersion_isSome_of_mem (v : Nat) (l : List (Nat × List Entry))
    (h : v ∈ l.map Prod.fst) : ∃ s, findVersion v l = some s := by
  induction l with
  | nil => simp at h
  | cons p rest ih =>
    by_cases hp : p.1 = v
    · exact ⟨p.2, by simp [findVersion, hp]⟩
    · have hrest : v ∈ rest.map Prod.fst := by
        rw [List.map_cons] at h
        rcases List.mem_cons.mp h with h1 | h1
        · exact absurd h1.symm hp
        · exact h1
      obtain ⟨s, hs⟩ := ih hrest
      exact ⟨s, by simp [findVersion, hp, hs]⟩

/-- `findVersion` fails on a version that was never committed. -/
theorem findVersion_eq_none_of_not_mem (v : Nat) (l : List (Nat × List Entry))
    (h : v ∉ l.map Prod.fst) : findVersion v l = none := by
  induction l with
  | nil => rfl
  | cons p rest ih =>
    have hp : ¬ p.1 = v := fun he =>
      h (by rw [List.map_cons, he]; exact List.mem_cons_self v (rest.map Prod.fst))
    have hrest : v ∉ rest.map Prod.fst := fun hm =>
      h (by rw [List.map_cons]; exact List.mem_cons_of_mem p.1 hm)
    simp [findVersion, hp, ih hrest]

/-- C7: loading version 0 resolves to the actual latest committed
version — it succeeds, reports the latest version number, and returns
the very snapshot that loading that version explicitly returns — and
loading a nonzero version that was never committed fails.  (Version
numbers of real commits are positive; 0 is the sentinel.) -/
theorem load_version_zero_and_missing (db : VersionedStore)
    (hne : db.committed ≠ [])
    (hpos : ∀ p ∈ db.committed, 0 < p.1) :
    (∃ snap, loadVersion db 0 = Except.ok (latestVersion db, snap))
    ∧ loadVersion db 0 = loadVersion db (latestVersion db)
    ∧ (∀ v, v ≠ 0 → v ∉ db.committed.map Prod.fst →
        loadVersion db v = Except.error "version does not exist") := by
  have hmem := latestVersion_mem db hne
  have hlpos : latestVersion db ≠ 0 := by
    intro h0
    obtain ⟨p, hp, hfst⟩ := List.mem_map.mp hmem
    have hppos := hpos p hp
    rw [h0] at hfst
    omega
  obtain ⟨s, hs⟩ := findVersion_isSome_of_mem _ _ hmem
  refine ⟨⟨s, ?_⟩, ?_, ?_⟩
  · simp [loadVersion, hs]
  · simp [loadVersion, hs, hlpos]
  · intro v hv0 hvm
    simp [loadVersion, hv0, findVersion_eq_none_of_not_mem v _ hvm]

/-- Witness for C7 on a one-commit store: version 0 loads the same as
version 1 (the latest), and version 5 does not exist. -/
theorem load_version_zero_and_missing_witness :
    loadVersion ⟨[(1, [])]⟩ 0 = loadVersion ⟨[(1, [])]⟩ (latestVersion ⟨[(1, [])]⟩)
    ∧ loadVersion ⟨[(1, [])]⟩ 5 = Except.error "version does not exist" := by
  have h := load_version_zero_and_missing ⟨[(1, [])]⟩ (by decide) (by decide)
  exact ⟨h.2.1, h.2.2 5 (by decide) (by decide)⟩

/-- The statistics loop produces one outcome per catalog module. -/
theorem printStatisticsLoop_length (f : String → Except String Unit)
    (l : List String) : (printStatisticsLoop f l).length = l.length := by
  induction l with
  | nil => rfl
  | cons m rest ih => simp [printStatisticsLoop, ih]

/-- The `i`-th outcome of the statistics loop depends only on the oracle
at the `i`-th module's own prefix. -/
theorem printStatisticsLoop_getElem (f : String → Except String Unit)
    (l : List String) (i : Nat) (h : i < l.length) :
    (printStatisticsLoop f l)[i]? =
      some (match f (modulePfx (l.getD i "")) with
            | .error e => ModuleOutcome.errorReported (l.getD i "") e
            | .ok _ => ModuleOutcome.statsPrinted (l.getD i "")) := by
  induction l generalizing i with
  | nil => simp at h
  | cons m rest ih =>
    cases i with
    | zero => simp [printStatisticsLoop]
    | succ j =>
      have hj : j < rest.length := by simpa using h
      simpa [printStatisticsLoop] using ih j hj

/-- Even when every module fails to open, the loop still reports one
error per module and runs to the end of the catalog. -/
theorem printStatisticsLoop_all_errors (e : String) (l : List String) :
    printStatisticsLoop (fun _ => Except.error e) l =
      l.map (fun m => ModuleOutcome.errorReported m e) := by
  induction l with
  | nil => rfl
  | cons m rest ih => simp [printStatisticsLoop, ih]

/-- C8: `PrintStatistics` walks the fixed catalog in order, building
each module's prefix as `s/k:<module>/`; each module's outcome depends
only on its own `ReadTree` call, and a per-module failure is reported
for that module while every other module is still processed — even an
oracle that fails for every module yields the full list of per-module
error reports. -/
theorem print_statistics_catalog (readTree : String → Except String Unit) :
    (PrintStatistics readTree).length = modules.length
    ∧ (∀ i, i < modules.length →
        (PrintStatistics readTree)[i]? =
          some (match readTree ("s/k:" ++ modules.getD i "" ++ "/") with
                | .error e => ModuleOutcome.errorReported (modules.getD i "") e
                | .ok _ => ModuleOutcome.statsPrinted (modules.getD i "")))
    ∧ (∀ e, PrintStatistics (fun _ => Except.error e) =
        modules.map (fun m => ModuleOutcome.errorReported m e)) := by
  refine ⟨printStatisticsLoop_length _ _, fun i h => ?_,
    fun e => printStatisticsLoop_all_errors e _⟩
  exact printStatisticsLoop_getElem _ _ i h

/-- Witness for C8 with the always-failing oracle: all 19 modules are
still processed, and the last module `evm` gets its own error report. -/
theorem print_statistics_catalog_witness :
    (PrintStatistics (fun _ => Except.error "no such store")).length = modules.length
    ∧ (PrintStatistics (fun _ => Except.error "no such store"))[18]? =
        some (ModuleOutcome.errorReported "evm" "no such store") := by
  have h := print_statistics_catalog (fun _ => Except.error "no such store")
  refine ⟨h.1, ?_⟩
  have h2 := h.2.1 18 (by decide)
  rw [h2]
  rfl

/-- C9: a path ending in neither `.db` nor `.db/` makes `OpenDB` fail
with the invalid-suffix error; a path whose suffix-stripped form has no
`/` (cannot be decomposed into parent directory and database name)
fails with the cannot-cut error; in both cases the `openHandle` result
— the sole constructor standing for a `dbm.NewRocksDB` call — is never
produced, and a handle is attempted only when a recognised suffix is
present. -/
theorem open_db_invalid_path (dir : List Char) :
    (dbSuffix.isSuffixOf dir = false → dbSuffixSlash.isSuffixOf dir = false →
      OpenDB dir = OpenDBResult.invalidSuffixError)
    ∧ (dbSuffix.isSuffixOf dir = true →
        lastSlashIdx (dir.take (dir.length - 3)) = none →
        OpenDB dir = OpenDBResult.cannotCutError)
    ∧ (dbSuffix.isSuffixOf dir = false → dbSuffixSlash.isSuffixOf dir = true →
        lastSlashIdx (dir.take (dir.length - 4)) = none →
        OpenDB dir = OpenDBResult.cannotCutError)
    ∧ (∀ name parent, OpenDB dir = OpenDBResult.openHandle name parent →
        dbSuffix.isSuffixOf dir = true ∨ dbSuffixSlash.isSuffixOf dir = true) := by
  refine ⟨?_, ?_, ?_, ?_⟩
  · intro h1 h2
    simp [OpenDB, h1, h2]
  · intro h1 h2
    simp [OpenDB, h1, openTrimmed, h2]
  · intro h1 h2 h3
    simp [OpenDB, h1, h2, openTrimmed, h3]
  · intro name parent h
    by_cases h1 : dbSuffix.isSuffixOf dir
    · exact Or.inl h1
    · by_cases h2 : dbSuffixSlash.isSuffixOf dir
      · exact Or.inr h2
      · unfold OpenDB at h
        rw [if_neg h1, if_neg h2] at h
        exact OpenDBResult.noConfusion h

/-- Witness for C9: `foo` has no recognised suffix; `x.db` has the
suffix but no `/` to split at. -/
theorem open_db_invalid_path_witness :
    OpenDB ['f', 'o', 'o'] = OpenDBResult.invalidSuffixError
    ∧ OpenDB ['x', '.', 'd', 'b'] = OpenDBResult.cannotCutError :=
  ⟨(open_db_invalid_path ['f', 'o', 'o']).1 (by decide) (by decide),
   (open_db_invalid_path ['x', '.', 'd', 'b']).2.1 (by decide) (by decide)⟩
